import Mathlib

/-!
Verification development for the letta-code-web session broker.

JavaScript strings are modelled as `List Char` (one element per UTF-16 code
unit); `String#slice`, concatenation and `length` become `List.take`/`drop`,
`++` and `List.length`.  Fallible host operations (`JSON.parse` wrapped in
`try`/`catch`) are modelled as `Option`-valued functions, so "never throws"
is captured by totality.
-/

namespace LettaWeb

/-! ## Frame codec (`server/src/ndjson.ts`)

`createNdjsonParser` keeps a string `buffer`; each incoming chunk is appended
and the buffer is repeatedly split at the first `"\n"`: the part before the
newline is trimmed, empty lines are skipped, non-empty lines are fed to
`JSON.parse` inside a `try`/`catch` whose handler ignores malformed lines.
The host `JSON.parse` is modelled by an arbitrary function
`parse : List Char → Option α` (`none` = the call threw). -/

/-- Whitespace removed by JavaScript `String#trim` (the code-unit subset that
can actually occur here). -/
def isJsWhitespace (c : Char) : Bool :=
  c = ' ' || c = '\t' || c = '\n' || c = '\r' || c = '\x0b' || c = '\x0c'

/-- JavaScript `String#trim`: drop whitespace from both ends. -/
def jsTrim (l : List Char) : List Char :=
  ((l.dropWhile isJsWhitespace).reverse.dropWhile isJsWhitespace).reverse

/-- `buffer.indexOf("\n")` together with the two `slice` calls: returns the
part strictly before the first newline and the part strictly after it, or
`none` when the buffer holds no newline. -/
def splitFirstLine : List Char → Option (List Char × List Char)
  | [] => none
  | c :: cs =>
    if c = '\n' then some ([], cs)
    else
      match splitFirstLine cs with
      | none => none
      | some (line, rest) => some (c :: line, rest)

theorem splitFirstLine_shape {l line rest : List Char}
    (h : splitFirstLine l = some (line, rest)) :
    l = line ++ '\n' :: rest := by
  induction l generalizing line rest with
  | nil => simp [splitFirstLine] at h
  | cons c cs ih =>
    by_cases hc : c = '\n'
    · simp [splitFirstLine, hc] at h
      simp [hc, h.1, h.2]
    · simp only [splitFirstLine, if_neg hc] at h
      cases hsfl : splitFirstLine cs with
      | none => rw [hsfl] at h; exact absurd h (by simp)
      | some p =>
        rw [hsfl] at h
        obtain ⟨l₀, r₀⟩ := p
        simp at h
        obtain ⟨h1, h2⟩ := h
        subst h1 h2
        simp [ih hsfl]

theorem splitFirstLine_rest_lt {l line rest : List Char}
    (h : splitFirstLine l = some (line, rest)) :
    rest.length < l.length := by
  rw [splitFirstLine_shape h]
  simp
  omega

/-- The decode loop of `createNdjsonParser`: drain every complete line from
the buffer, in order, producing the parsed messages (callback arguments) and
the residual buffer. -/
def processBuffer {α : Type} (parse : List Char → Option α) (buffer : List Char) :
    List α × List Char :=
  match h : splitFirstLine buffer with
  | none => ([], buffer)
  | some (line, rest) =>
    let t := jsTrim line
    let acc := processBuffer parse rest
    if t = [] then acc
    else
      match parse t with
      | some v => (v :: acc.1, acc.2)
      | none => acc
termination_by buffer.length
decreasing_by exact splitFirstLine_rest_lt h

/-- One call of the closure returned by `createNdjsonParser`: append the chunk
to the buffer, then drain complete lines. -/
def feedChunk {α : Type} (parse : List Char → Option α)
    (buffer chunk : List Char) : List α × List Char :=
  processBuffer parse (buffer ++ chunk)

/-- Feeding a whole sequence of chunks from a fresh parser, collecting every
callback invocation in order together with the final buffer. -/
def feedAll {α : Type} (parse : List Char → Option α)
    (chunks : List (List Char)) : List α × List Char :=
  chunks.foldl
    (fun acc c =>
      (acc.1 ++ (feedChunk parse acc.2 c).1, (feedChunk parse acc.2 c).2))
    ([], [])

/-- Specification-side view of a byte stream: the newline-terminated lines, in
order (payloads strictly between newlines). -/
def completeLines (s : List Char) : List (List Char) :=
  match h : splitFirstLine s with
  | none => []
  | some (line, rest) => line :: completeLines rest
termination_by s.length
decreasing_by exact splitFirstLine_rest_lt h

/-- Specification-side view of a byte stream: the bytes after the last
newline (the whole stream when it has no newline). -/
def tailFragment (s : List Char) : List Char :=
  match h : splitFirstLine s with
  | none => s
  | some (_, rest) => tailFragment rest
termination_by s.length
decreasing_by exact splitFirstLine_rest_lt h

/-- What the decoder owes for one line: nothing for lines trimming to empty
or failing to parse, the parsed value otherwise. -/
def lineOutput {α : Type} (parse : List Char → Option α) (line : List Char) :
    Option α :=
  let t := jsTrim line
  if t = [] then none else parse t

theorem processBuffer_none {α : Type} (parse : List Char → Option α)
    {s : List Char} (h : splitFirstLine s = none) :
    processBuffer parse s = ([], s) := by
  rw [processBuffer]
  split
  · rfl
  · next line rest heq => rw [h] at heq; cases heq

theorem processBuffer_some {α : Type} (parse : List Char → Option α)
    {s line rest : List Char} (h : splitFirstLine s = some (line, rest)) :
    processBuffer parse s =
      (if jsTrim line = [] then processBuffer parse rest
       else
         match parse (jsTrim line) with
         | some v =>
             (v :: (processBuffer parse rest).1, (processBuffer parse rest).2)
         | none => processBuffer parse rest) := by
  rw [processBuffer]
  split
  · next heq => rw [h] at heq; cases heq
  · next line' rest' heq =>
    rw [h] at heq
    cases heq
    rfl

theorem completeLines_none {s : List Char} (h : splitFirstLine s = none) :
    completeLines s = [] := by
  rw [completeLines]
  split
  · rfl
  · next line rest heq => rw [h] at heq; cases heq

theorem completeLines_some {s line rest : List Char}
    (h : splitFirstLine s = some (line, rest)) :
    completeLines s = line :: completeLines rest := by
  rw [completeLines]
  split
  · next heq => rw [h] at heq; cases heq
  · next line' rest' heq =>
    rw [h] at heq
    cases heq
    rfl

theorem tailFragment_none {s : List Char} (h : splitFirstLine s = none) :
    tailFragment s = s := by
  rw [tailFragment]
  split
  · rfl
  · next line rest heq => rw [h] at heq; cases heq

theorem tailFragment_some {s line rest : List Char}
    (h : splitFirstLine s = some (line, rest)) :
    tailFragment s = tailFragment rest := by
  rw [tailFragment]
  split
  · next heq => rw [h] at heq; cases heq
  · next line' rest' heq =>
    rw [h] at heq
    cases heq
    rfl

theorem processBuffer_eq_spec {α : Type} (parse : List Char → Option α)
    (s : List Char) :
    processBuffer parse s =
      ((completeLines s).filterMap (lineOutput parse), tailFragment s) := by
  suffices key : ∀ (n : Nat) (s : List Char), s.length ≤ n →
      processBuffer parse s =
        ((completeLines s).filterMap (lineOutput parse), tailFragment s) from
    key s.length s le_rfl
  intro n
  induction n with
  | zero =>
    intro s hs
    cases h : splitFirstLine s with
    | none =>
      rw [processBuffer_none parse h, completeLines_none h, tailFragment_none h]
      simp
    | some p =>
      obtain ⟨line, rest⟩ := p
      exact absurd (splitFirstLine_rest_lt h) (by omega)
  | succ n ih =>
    intro s hs
    cases h : splitFirstLine s with
    | none =>
      rw [processBuffer_none parse h, completeLines_none h, tailFragment_none h]
      simp
    | some p =>
      obtain ⟨line, rest⟩ := p
      have hrec := ih rest (by have := splitFirstLine_rest_lt h; omega)
      rw [processBuffer_some parse h, completeLines_some h,
        tailFragment_some h, hrec]
      by_cases ht : jsTrim line = []
      · simp [ht, lineOutput]
      · cases hv : parse (jsTrim line) with
        | none => simp [ht, hv, lineOutput]
        | some v => simp [ht, hv, lineOutput]

theorem tailFragment_no_newline (s : List Char) :
    splitFirstLine (tailFragment s) = none := by
  suffices key : ∀ (n : Nat) (s : List Char), s.length ≤ n →
      splitFirstLine (tailFragment s) = none from key s.length s le_rfl
  intro n
  induction n with
  | zero =>
    intro s hs
    cases h : splitFirstLine s with
    | none => rw [tailFragment_none h]; exact h
    | some p =>
      obtain ⟨line, rest⟩ := p
      exact absurd (splitFirstLine_rest_lt h) (by omega)
  | succ n ih =>
    intro s hs
    cases h : splitFirstLine s with
    | none => rw [tailFragment_none h]; exact h
    | some p =>
      obtain ⟨line, rest⟩ := p
      rw [tailFragment_some h]
      exact ih rest (by have := splitFirstLine_rest_lt h; omega)

theorem splitFirstLine_line_no_newline {l line rest : List Char}
    (h : splitFirstLine l = some (line, rest)) :
    '\n' ∉ line := by
  induction l generalizing line rest with
  | nil => simp [splitFirstLine] at h
  | cons c cs ih =>
    by_cases hc : c = '\n'
    · simp [splitFirstLine, hc] at h
      simp [h.1]
    · simp only [splitFirstLine, if_neg hc] at h
      cases hcs : splitFirstLine cs with
      | none => rw [hcs] at h; exact absurd h (by simp)
      | some p =>
        rw [hcs] at h
        obtain ⟨l₀, r₀⟩ := p
        simp at h
        obtain ⟨h1, _⟩ := h
        subst h1
        simp only [List.mem_cons, not_or]
        exact ⟨fun hcn => hc hcn.symm, ih hcs⟩

theorem splitFirstLine_of_no_newline {line : List Char} (rest : List Char)
    (h : '\n' ∉ line) :
    splitFirstLine (line ++ '\n' :: rest) = some (line, rest) := by
  induction line with
  | nil => simp [splitFirstLine]
  | cons c cs ih =>
    simp only [List.mem_cons, not_or] at h
    have hc : ¬(c = '\n') := fun hcn => h.1 hcn.symm
    simp only [List.cons_append, splitFirstLine, if_neg hc, List.append_eq]
    simp [ih h.2]

/-- Stream decomposition: the complete lines of `s ++ c` are the complete
lines of `s` followed by the complete lines of (leftover of `s`) ++ `c`. -/
theorem completeLines_append_split (s c : List Char) :
    completeLines (s ++ c) =
      completeLines s ++ completeLines (tailFragment s ++ c) := by
  suffices key : ∀ (n : Nat) (s : List Char), s.length ≤ n →
      completeLines (s ++ c) =
        completeLines s ++ completeLines (tailFragment s ++ c) from
    key s.length s le_rfl
  intro n
  induction n with
  | zero =>
    intro s hs
    cases h : splitFirstLine s with
    | none => rw [completeLines_none h, tailFragment_none h, List.nil_append]
    | some p =>
      obtain ⟨line, rest⟩ := p
      exact absurd (splitFirstLine_rest_lt h) (by omega)
  | succ n ih =>
    intro s hs
    cases h : splitFirstLine s with
    | none => rw [completeLines_none h, tailFragment_none h, List.nil_append]
    | some p =>
      obtain ⟨line, rest⟩ := p
      have hsh := splitFirstLine_shape h
      have h3 : s ++ c = line ++ '\n' :: (rest ++ c) := by rw [hsh]; simp
      have h4 : splitFirstLine (s ++ c) = some (line, rest ++ c) := by
        rw [h3]
        exact splitFirstLine_of_no_newline (rest ++ c)
          (splitFirstLine_line_no_newline h)
      rw [completeLines_some h4, completeLines_some h, tailFragment_some h,
        ih rest (by have := splitFirstLine_rest_lt h; omega)]
      simp

theorem tailFragment_append_split (s c : List Char) :
    tailFragment (s ++ c) = tailFragment (tailFragment s ++ c) := by
  suffices key : ∀ (n : Nat) (s : List Char), s.length ≤ n →
      tailFragment (s ++ c) = tailFragment (tailFragment s ++ c) from
    key s.length s le_rfl
  intro n
  induction n with
  | zero =>
    intro s hs
    cases h : splitFirstLine s with
    | none => rw [tailFragment_none h]
    | some p =>
      obtain ⟨line, rest⟩ := p
      exact absurd (splitFirstLine_rest_lt h) (by omega)
  | succ n ih =>
    intro s hs
    cases h : splitFirstLine s with
    | none => rw [tailFragment_none h]
    | some p =>
      obtain ⟨line, rest⟩ := p
      have hsh := splitFirstLine_shape h
      have h3 : s ++ c = line ++ '\n' :: (rest ++ c) := by rw [hsh]; simp
      have h4 : splitFirstLine (s ++ c) = some (line, rest ++ c) := by
        rw [h3]
        exact splitFirstLine_of_no_newline (rest ++ c)
          (splitFirstLine_line_no_newline h)
      rw [tailFragment_some h4, tailFragment_some h,
        ih rest (by have := splitFirstLine_rest_lt h; omega)]

theorem feedAll_go {α : Type} (parse : List Char → Option α)
    (chunks : List (List Char)) (s : List Char) (outs : List α)
    (houts : outs = (completeLines s).filterMap (lineOutput parse)) :
    chunks.foldl
      (fun acc c =>
        (acc.1 ++ (feedChunk parse acc.2 c).1, (feedChunk parse acc.2 c).2))
      (outs, tailFragment s) =
    ((completeLines (s ++ chunks.flatten)).filterMap (lineOutput parse),
      tailFragment (s ++ chunks.flatten)) := by
  induction chunks generalizing s outs with
  | nil => simp [houts]
  | cons c cs ih =>
    rw [List.foldl_cons]
    have hstep :
        ((outs, tailFragment s).1 ++
            (feedChunk parse (outs, tailFragment s).2 c).1,
          (feedChunk parse (outs, tailFragment s).2 c).2) =
        ((completeLines (s ++ c)).filterMap (lineOutput parse),
          tailFragment (s ++ c)) := by
      show (outs ++ (feedChunk parse (tailFragment s) c).1,
            (feedChunk parse (tailFragment s) c).2) = _
      rw [feedChunk, processBuffer_eq_spec, completeLines_append_split s c,
        tailFragment_append_split s c]
      simp [houts]
    rw [hstep]
    have h2 := ih (s ++ c)
      ((completeLines (s ++ c)).filterMap (lineOutput parse)) rfl
    rw [h2]
    simp

/-- The full behaviour of a fresh NDJSON decoder over any chunk sequence:
callbacks fire exactly for the newline-terminated lines whose trim is
non-empty and parses, in input order, and the bytes after the last newline
stay buffered. -/
theorem feedAll_eq_spec {α : Type} (parse : List Char → Option α)
    (chunks : List (List Char)) :
    feedAll parse chunks =
      ((completeLines chunks.flatten).filterMap (lineOutput parse),
        tailFragment chunks.flatten) := by
  have h0 : (([] : List α), ([] : List Char)) = ([], tailFragment []) := by
    rw [tailFragment_none (s := []) rfl]
  rw [feedAll, h0, feedAll_go parse chunks [] []
    (by rw [completeLines_none (s := []) rfl]; simp)]
  simp

/-- A line strictly before a newline passes `completeLines` unchanged. -/
theorem completeLines_cons_line {line : List Char} (rest : List Char)
    (h : '\n' ∉ line) :
    completeLines (line ++ '\n' :: rest) = line :: completeLines rest :=
  completeLines_some (splitFirstLine_of_no_newline rest h)

/-- The first example frame of the spec, `JSON({a:1})`. -/
def jsonLineA : List Char := "\x7b\"a\":1\x7d".toList

/-- The second example frame of the spec, `JSON({b:2})`. -/
def jsonLineB : List Char := "\x7b\"b\":2\x7d".toList

/-- The spec's example chunk: both frames concatenated, each
newline-terminated, arriving in a single chunk. -/
def exampleChunkAB : List Char :=
  jsonLineA ++ '\n' :: (jsonLineB ++ ['\n'])

/-- C5: for every sequence of chunks fed to `createNdjsonParser`'s closure,
the callback fires exactly once, in input order, for each newline-terminated
line whose trim is non-empty valid JSON (`parse` succeeds); lines trimming to
empty are skipped; unparseable lines are discarded (the `catch` arm, i.e.
`parse = none`, never aborts the fold); bytes after the last newline remain
buffered.  In particular one chunk holding the two example frames produces
exactly the two callbacks, in order. -/
theorem C5_ndjson_decoder {α : Type} (parse : List Char → Option α)
    (chunks : List (List Char)) :
    (feedAll parse chunks).1 =
        (completeLines chunks.flatten).filterMap (lineOutput parse) ∧
    (feedAll parse chunks).2 = tailFragment chunks.flatten ∧
    (∀ (a b : α), parse jsonLineA = some a → parse jsonLineB = some b →
      (feedAll parse [exampleChunkAB]).1 = [a, b]) := by
  refine ⟨by rw [feedAll_eq_spec], by rw [feedAll_eq_spec], ?_⟩
  intro a b ha hb
  rw [feedAll_eq_spec]
  have hflat : ([exampleChunkAB] : List (List Char)).flatten = exampleChunkAB := by
    simp
  rw [hflat, exampleChunkAB,
    completeLines_cons_line (jsonLineB ++ ['\n']) (by decide),
    completeLines_cons_line ([] : List Char) (by decide),
    completeLines_none (s := []) rfl]
  have htA : jsTrim jsonLineA = jsonLineA := by decide
  have htB : jsTrim jsonLineB = jsonLineB := by decide
  have hlA : lineOutput parse jsonLineA = some a := by
    show (if jsTrim jsonLineA = [] then none else parse (jsTrim jsonLineA)) =
      some a
    rw [if_neg (show ¬(jsTrim jsonLineA = []) by decide), htA, ha]
  have hlB : lineOutput parse jsonLineB = some b := by
    show (if jsTrim jsonLineB = [] then none else parse (jsTrim jsonLineB)) =
      some b
    rw [if_neg (show ¬(jsTrim jsonLineB = []) by decide), htB, hb]
  simp [hlA, hlB]

/-- Witness for C5 at a concrete parse function and the example chunk. -/
theorem C5_ndjson_decoder_witness :
    (feedAll (fun l => some l) [exampleChunkAB]).1 = [jsonLineA, jsonLineB] :=
  (C5_ndjson_decoder (fun l => some l) [exampleChunkAB]).2.2
    jsonLineA jsonLineB rfl rfl

/-! ## Data model

`server/src/protocol.ts` is not part of the provided sources; the message and
state shapes below are modelled from the spec (§3, §6) and from their concrete
uses in `session.ts` and `mock-runner.ts`.  Viewer connections and worker
pids are identified by `Nat` handles. -/

/-- The `--runner` modes accepted by the server. -/
inductive RunnerMode
  | mock
  | letta
  | seam
deriving DecidableEq

/-- An approval request: identifier, tool name, opaque serialized arguments. -/
structure Approval where
  toolCallId : String
  toolName : String
  toolArgs : String
deriving DecidableEq

/-- One selectable option (id plus label) offered by the worker. -/
structure SelectOption where
  id : String
  label : String
deriving DecidableEq

/-- The selectable-option metadata blob of a UI snapshot. -/
structure UiOptions where
  models : List SelectOption
  toolsets : List SelectOption
  systemPrompts : List SelectOption
deriving DecidableEq

/-- The worker-authoritative UI snapshot.  Fields beyond the first three are
optional: the broker's initial value carries only the first three. -/
structure UiState where
  activeOverlay : Option String
  pendingApprovals : List Approval
  currentApprovalIndex : Nat
  currentApproval : Option Approval := none
  agentId : Option String := none
  agentName : Option String := none
  currentModelId : Option String := none
  currentToolset : Option String := none
  currentSystemPromptId : Option String := none
  options : Option UiOptions := none
deriving DecidableEq

/-- `Session`'s initial / post-stop `lastUiState`:
`{ activeOverlay: null, pendingApprovals: [], currentApprovalIndex: 0 }`. -/
def emptyUiState : UiState :=
  { activeOverlay := none, pendingApprovals := [], currentApprovalIndex := 0 }

/-- One cached tool-UI record: `{ toolCallId, toolName, state: { kind, payload } }`
with the payload kept opaque. -/
structure ToolUiEntry where
  toolCallId : String
  toolName : String
  stateKind : String
  statePayload : String
deriving DecidableEq

/-- The UI actions handled by `mock-runner.ts`'s `handleUiAction`. -/
inductive UiAction
  | overlayOpen (overlay : String)
  | overlayClose
  | modelSelect (modelId : String)
  | toolsetSelect (toolset : String)
  | systemSelect (promptId : String)
  | approveCurrent
  | approveAlways (scope : Option String)
  | denyCurrent (reason : String)
  | approvalCancel
deriving DecidableEq

/-- `ServerToClientMessage`: what the broker sends to a viewer. -/
inductive SCMsg
  | terminalData (data : List Char)
  | uiState (state : UiState)
  | toolUiState (toolCallId toolName stateKind statePayload : String)
  | sessionError (message : List Char)
deriving DecidableEq

/-- `ServerToRunnerMessage`: what the broker writes to the control socket. -/
inductive SRMsg
  | runnerSubmit (text : List Char)
  | runnerUiAction (action : UiAction)
  | runnerToolUiEvent (toolCallId eventType eventPayload : String)
deriving DecidableEq

/-- `RunnerToServerMessage`: what the worker sends over the control socket. -/
inductive RSMsg
  | runnerReady (pid : Nat)
  | runnerUiState (state : UiState)
  | runnerToolUiState (toolCallId toolName stateKind statePayload : String)
  | runnerLog (level : String) (message : List Char)
deriving DecidableEq

/-- Observable side effects of a broker operation, in program order. -/
inductive Effect
  | sendTo (viewer : Nat) (m : SCMsg)
  | broadcast (m : SCMsg)
  | closeViewer (viewer : Nat)
  | spawnWorker
  | killWorker
  | destroyRunnerSocket
  | closeSocketServer
  | removeSocketFile
  | removeTmpDir
  | writeRunner (m : SRMsg)
  | writePty (data : List Char)
  | armIdleTimer (delayMs : Nat)
  | cancelIdleTimer
  | scheduleStart
deriving DecidableEq

/-- A `setTimeout` handle is `pending` until its callback runs; the code never
nulls the field when the callback fires, so a `fired` handle can linger. -/
inductive TimerState
  | pending
  | fired
deriving DecidableEq

/-- The mutable fields of `class Session`.  Process/socket handles are
modelled by `Bool` presence flags (`ptyProcess !== null` etc.). -/
structure SessionState where
  runner : RunnerMode
  clients : List Nat
  idleTimer : Option TimerState
  startPromise : Bool
  disposed : Bool
  terminalBuffer : List Char
  lastToolUiStates : List (String × ToolUiEntry)
  ptyProcess : Bool
  socketServer : Bool
  runnerSocket : Bool
  tmpDir : Bool
  socketPath : Bool
  lastUiState : UiState
deriving DecidableEq

/-- `private readonly maxTerminalBufferChars = 1_000_000`. -/
def maxTerminalBufferChars : Nat := 1000000

/-- `const chunkSize = 64_000` in `flushTerminalBacklog`. -/
def backlogChunkChars : Nat := 64000

/-- The idle teardown delay, `5 * 60 * 1000` ms. -/
def idleDelayMs : Nat := 5 * 60 * 1000

/-- A freshly constructed `Session`. -/
def newSession (runner : RunnerMode) : SessionState :=
  { runner := runner, clients := [], idleTimer := none, startPromise := false,
    disposed := false, terminalBuffer := [], lastToolUiStates := [],
    ptyProcess := false, socketServer := false, runnerSocket := false,
    tmpDir := false, socketPath := false, lastUiState := emptyUiState }

/-! ## Session operations (`server/src/session.ts`)

Each method is a pure function from state to (state, effect list); the effect
list records externally visible actions in program order.  `sendToClient` and
`sendToClients` return without sending when `disposed` is set, hence the
`disposed` guards on emitted messages. -/

/-- `this.clients.add(ws)` — a JS `Set` keeps insertion order and ignores
re-insertion. -/
def addClient (cs : List Nat) (w : Nat) : List Nat :=
  if w ∈ cs then cs else cs ++ [w]

/-- The truncation step of `pushTerminalData`: when the appended buffer is
over the cap, `slice(length - maxTerminalBufferChars)`. -/
def truncateBuffer (buf0 : List Char) : List Char :=
  if buf0.length > maxTerminalBufferChars then
    buf0.drop (buf0.length - maxTerminalBufferChars)
  else buf0

/-- `pushTerminalData`: append to the backlog, truncate to the newest
`maxTerminalBufferChars` characters when over the cap, broadcast the (raw,
untruncated) chunk. -/
def pushTerminalData (s : SessionState) (data : List Char) :
    SessionState × List Effect :=
  ({ s with terminalBuffer := truncateBuffer (s.terminalBuffer ++ data) },
    if s.disposed then [] else [Effect.broadcast (SCMsg.terminalData data)])

/-- The chunking loop of `flushTerminalBacklog`:
`for (let i = 0; i < len; i += 64_000) slice(i, i + 64_000)`. -/
def chunkBacklog (l : List Char) : List (List Char) :=
  if h : l = [] then []
  else l.take backlogChunkChars :: chunkBacklog (l.drop backlogChunkChars)
termination_by l.length
decreasing_by
  have hlen : 0 < l.length := List.length_pos.mpr h
  simp only [List.length_drop]
  have : 0 < backlogChunkChars := by rw [backlogChunkChars]; omega
  omega

/-- `flushTerminalBacklog(ws)`: no sends when the backlog is empty, otherwise
one `terminal.data` per chunk, in order. -/
def flushTerminalBacklog (s : SessionState) (w : Nat) : List Effect :=
  (chunkBacklog s.terminalBuffer).map
    (fun c => Effect.sendTo w (SCMsg.terminalData c))

/-- `ensureStarted()`: at most one in-flight start handle; assigning
`this.startPromise` happens synchronously, before any awaited work. -/
def ensureStarted (s : SessionState) : SessionState × List Effect :=
  if s.startPromise then (s, [])
  else ({ s with startPromise := true }, [Effect.scheduleStart])

/-- `attach(ws)`: reject on a disposed session; otherwise cancel a pending
idle timer, register the viewer, replay the backlog in chunks, send the
last-known UI state, send every cached tool-UI state, then `ensureStarted`. -/
def attach (s : SessionState) (w : Nat) : SessionState × List Effect :=
  if s.disposed then (s, [Effect.closeViewer w])
  else
    let cancelEff :=
      if s.idleTimer.isSome then [Effect.cancelIdleTimer] else []
    let s1 := { s with idleTimer := none, clients := addClient s.clients w }
    let primeEffs :=
      flushTerminalBacklog s1 w ++
        Effect.sendTo w (SCMsg.uiState s1.lastUiState) ::
          s1.lastToolUiStates.map (fun e =>
            Effect.sendTo w (SCMsg.toolUiState e.2.toolCallId e.2.toolName
              e.2.stateKind e.2.statePayload))
    let started := ensureStarted s1
    (started.1, cancelEff ++ primeEffs ++ started.2)

/-- `detach(ws)`: deregister; when that leaves zero viewers and no stored
timer handle, arm the 5-minute idle timer. -/
def detach (s : SessionState) (w : Nat) : SessionState × List Effect :=
  let s1 := { s with clients := s.clients.erase w }
  if s1.clients.length > 0 then (s1, [])
  else if s1.idleTimer.isSome then (s1, [])
  else
    ({ s1 with idleTimer := some TimerState.pending },
      [Effect.armIdleTimer idleDelayMs])

/-- `stop()`: drop the start handle, clear backlog / tool-UI cache / UI state,
then best-effort teardown (control socket, listener, worker, socket file,
temp dir), each step swallowing its own errors.  The timer handle field is
not touched. -/
def stop (s : SessionState) : SessionState × List Effect :=
  ({ s with
      startPromise := false, terminalBuffer := [],
      lastToolUiStates := [], lastUiState := emptyUiState,
      runnerSocket := false, socketServer := false, ptyProcess := false,
      socketPath := false, tmpDir := false },
    (if s.runnerSocket then [Effect.destroyRunnerSocket] else []) ++
      (if s.socketServer then [Effect.closeSocketServer] else []) ++
      (if s.ptyProcess then [Effect.killWorker] else []) ++
      (if s.socketPath then [Effect.removeSocketFile] else []) ++
      (if s.tmpDir then [Effect.removeTmpDir] else []))

/-- The idle timer firing: only a pending handle can fire; the callback runs
`stop()`; the (now stale) handle stays stored because `stop` never nulls it. -/
def idleTimerFire (s : SessionState) : SessionState × List Effect :=
  match s.idleTimer with
  | some TimerState.pending =>
    ({ (stop s).1 with idleTimer := some TimerState.fired }, (stop s).2)
  | _ => (s, [])

/-- `dispose()`: idempotent; cancel the timer, `stop()`, close and clear every
attached viewer. -/
def dispose (s : SessionState) : SessionState × List Effect :=
  if s.disposed then (s, [])
  else
    let cancelEff :=
      if s.idleTimer.isSome then [Effect.cancelIdleTimer] else []
    let s1 := { s with disposed := true, idleTimer := none }
    let stopped := stop s1
    ({ stopped.1 with clients := [] },
      cancelEff ++ stopped.2 ++ s1.clients.map Effect.closeViewer)

/-- `forwardSubmit(text)`: structured submit over the control connection when
present, otherwise `text` then a carriage return as terminal keystrokes when
a worker is running, otherwise nothing. -/
def forwardSubmit (s : SessionState) (text : List Char) :
    SessionState × List Effect :=
  if s.runnerSocket then
    (s, [Effect.writeRunner (SRMsg.runnerSubmit text)])
  else if s.ptyProcess then
    (s, [Effect.writePty text, Effect.writePty ['\r']])
  else (s, [])

/-- `forwardUiAction(action)`: control-connection only; no fallback. -/
def forwardUiAction (s : SessionState) (action : UiAction) :
    SessionState × List Effect :=
  if s.runnerSocket then
    (s, [Effect.writeRunner (SRMsg.runnerUiAction action)])
  else (s, [])

/-- `Map#set`: update in place when the key exists (keeping its original
position), append otherwise. -/
def toolUiSet (m : List (String × ToolUiEntry)) (key : String)
    (e : ToolUiEntry) : List (String × ToolUiEntry) :=
  match m with
  | [] => [(key, e)]
  | (k, v) :: rest =>
    if k = key then (k, e) :: rest else (k, v) :: toolUiSet rest key e

/-- The `runner.log` formatting `\r\n[runner:LEVEL] MESSAGE\r\n`. -/
def runnerLogLine (level : String) (message : List Char) : List Char :=
  "\r\n[runner:".toList ++ level.toList ++ "] ".toList ++ message ++
    "\r\n".toList

/-- `onRunnerMessage`: `ui_state` replaces the cached state wholesale and is
broadcast unmodified; `ready` re-broadcasts the cached state; `log` goes
through the backlog path; `tool_ui.state` upserts and broadcasts. -/
def onRunnerMessage (s : SessionState) (m : RSMsg) :
    SessionState × List Effect :=
  match m with
  | RSMsg.runnerUiState st =>
    ({ s with lastUiState := st },
      if s.disposed then [] else [Effect.broadcast (SCMsg.uiState st)])
  | RSMsg.runnerReady _ =>
    (s, if s.disposed then []
        else [Effect.broadcast (SCMsg.uiState s.lastUiState)])
  | RSMsg.runnerLog level message =>
    pushTerminalData s (runnerLogLine level message)
  | RSMsg.runnerToolUiState id name kind payload =>
    ({ s with lastToolUiStates :=
        toolUiSet s.lastToolUiStates id ⟨id, name, kind, payload⟩ },
      if s.disposed then []
      else [Effect.broadcast (SCMsg.toolUiState id name kind payload)])

/-! ## Credential-gated start (`Session.start`, `Session.restartPty`)

The async `start()` body is modelled sequentially here (its suspension points
matter only for the interleaving analysis further below): make the temp dir,
set the socket path, start the control-channel listener, then gate spawning
on credentials for non-mock runners.  The environment read by
`readStoredAuth` / `process.env` and the outcome of `validateAccessToken`
are captured in `AuthEnv`. -/

/-- The credential environment at the moment `start`/`restartPty` runs. -/
structure AuthEnv where
  storedAccessToken : Option String
  storedApiBaseUrl : Option String
  envApiKey : Option String
  envBaseUrl : Option String
  validateOk : Bool
  validateMessage : String

/-- `stored?.accessToken ?? process.env.LETTA_API_KEY`. -/
def effectiveApiKey (a : AuthEnv) : Option String :=
  a.storedAccessToken.orElse (fun _ => a.envApiKey)

/-- `stored?.apiBaseUrl ?? process.env.LETTA_BASE_URL`. -/
def effectiveBaseUrl (a : AuthEnv) : Option String :=
  a.storedApiBaseUrl.orElse (fun _ => a.envBaseUrl)

/-- The `"[web] Not authenticated"` diagnostic line. -/
def notAuthLine : List Char :=
  "\r\n[web] Not authenticated. Use Connect to sign in first.\r\n".toList

/-- The `"[web] Auth token invalid or API unreachable"` diagnostic line. -/
def invalidAuthLine (msg : String) : List Char :=
  ("\r\n[web] Auth token invalid or API unreachable: " ++ msg ++
    "\r\n\r\nUse Connect to sign in again.\r\n").toList

/-- `spawnPty()` on a session whose `socketPath` is set: spawn the runner
under a pty and store the handle.  (With no `socketPath` the real method
throws; both call sites below establish the path first.) -/
def spawnPty (s : SessionState) : SessionState × List Effect :=
  ({ s with ptyProcess := true }, [Effect.spawnWorker])

/-- The body of `private async start()`. -/
def start (s : SessionState) (a : AuthEnv) : SessionState × List Effect :=
  let s1 := { s with tmpDir := true, socketPath := true, socketServer := true }
  if s1.runner = RunnerMode.mock then spawnPty s1
  else
    match effectiveApiKey a with
    | none => pushTerminalData s1 notAuthLine
    | some key =>
      match effectiveBaseUrl a with
      | none => spawnPty s1
      | some _ =>
        if a.validateOk then spawnPty s1
        else pushTerminalData s1 (invalidAuthLine a.validateMessage)

/-- `restartPty()` (sequential view): tear down the control connection and
the worker, then re-run the credential gate and spawn. -/
def restartPty (s : SessionState) (a : AuthEnv) : SessionState × List Effect :=
  if s.disposed then (s, [])
  else
    let tearEffs :=
      (if s.runnerSocket then [Effect.destroyRunnerSocket] else []) ++
        (if s.ptyProcess then [Effect.killWorker] else [])
    let s1 := { s with runnerSocket := false, ptyProcess := false }
    let res :=
      if s1.runner = RunnerMode.mock then spawnPty s1
      else
        match effectiveApiKey a with
        | none => pushTerminalData s1 notAuthLine
        | some key =>
          match effectiveBaseUrl a with
          | none => spawnPty s1
          | some _ =>
            if a.validateOk then spawnPty s1
            else pushTerminalData s1 (invalidAuthLine a.validateMessage)
    (res.1, tearEffs ++ res.2)

/-! ## Backlog truncation and chunking lemmas -/

/-- `slice(length - n)`: keep the newest (at most) `n` characters. -/
def keepNewest (n : Nat) (l : List Char) : List Char :=
  l.drop (l.length - n)

theorem keepNewest_length_le (n : Nat) (l : List Char) :
    (keepNewest n l).length ≤ n := by
  rw [keepNewest, List.length_drop]
  omega

theorem keepNewest_of_le {n : Nat} {l : List Char} (h : l.length ≤ n) :
    keepNewest n l = l := by
  rw [keepNewest, Nat.sub_eq_zero_of_le h, List.drop_zero]

/-- Truncating after each append equals truncating once at the end. -/
theorem keepNewest_append (n : Nat) (a b : List Char) :
    keepNewest n (keepNewest n a ++ b) = keepNewest n (a ++ b) := by
  have h1 : (a.drop (a.length - n)) ++ b = (a ++ b).drop (a.length - n) :=
    (List.drop_append_of_le_length (Nat.sub_le _ _)).symm
  rw [keepNewest, keepNewest, keepNewest, h1, List.drop_drop]
  congr 1
  simp only [List.length_drop, List.length_append]
  omega

theorem keepNewest_suffix (n : Nat) (l : List Char) :
    keepNewest n l <:+ l :=
  List.drop_suffix _ l

/-- The conditional truncation is exactly "keep the newest cap-many". -/
theorem truncateBuffer_eq (buf0 : List Char) :
    truncateBuffer buf0 = keepNewest maxTerminalBufferChars buf0 := by
  rw [truncateBuffer, keepNewest]
  by_cases h : buf0.length > maxTerminalBufferChars
  · rw [if_pos h]
  · rw [if_neg h, Nat.sub_eq_zero_of_le (by omega), List.drop_zero]

/-- One `pushTerminalData` leaves the backlog equal to
`keepNewest max (old ++ data)` and changes no other field. -/
theorem pushTerminalData_state (s : SessionState) (data : List Char) :
    (pushTerminalData s data).1 =
      { s with terminalBuffer :=
          keepNewest maxTerminalBufferChars (s.terminalBuffer ++ data) } := by
  rw [pushTerminalData, truncateBuffer_eq]

theorem chunkBacklog_empty : chunkBacklog [] = [] := by
  rw [chunkBacklog]
  simp

theorem chunkBacklog_cons {l : List Char} (h : l ≠ []) :
    chunkBacklog l =
      l.take backlogChunkChars :: chunkBacklog (l.drop backlogChunkChars) := by
  rw [chunkBacklog]
  simp [h]

/-- Reassembling the backlog chunks gives back the backlog. -/
theorem chunkBacklog_flatten (l : List Char) :
    (chunkBacklog l).flatten = l := by
  suffices key : ∀ (n : Nat) (l : List Char), l.length ≤ n →
      (chunkBacklog l).flatten = l from key l.length l le_rfl
  intro n
  induction n with
  | zero =>
    intro l hl
    have : l = [] := by
      cases l with
      | nil => rfl
      | cons c cs => simp at hl
    rw [this, chunkBacklog_empty]
    rfl
  | succ n ih =>
    intro l hl
    by_cases h : l = []
    · rw [h, chunkBacklog_empty]; rfl
    · rw [chunkBacklog_cons h]
      have hpos : 0 < l.length := List.length_pos.mpr h
      have hbc : 0 < backlogChunkChars := by rw [backlogChunkChars]; omega
      have := ih (l.drop backlogChunkChars)
        (by rw [List.length_drop]; omega)
      simp [this]

/-- Every backlog chunk fits the 64,000-character bound. -/
theorem chunkBacklog_size (l : List Char) :
    ∀ c ∈ chunkBacklog l, c.length ≤ backlogChunkChars := by
  suffices key : ∀ (n : Nat) (l : List Char), l.length ≤ n →
      ∀ c ∈ chunkBacklog l, c.length ≤ backlogChunkChars from
    key l.length l le_rfl
  intro n
  induction n with
  | zero =>
    intro l hl c hc
    have : l = [] := by
      cases l with
      | nil => rfl
      | cons x xs => simp at hl
    rw [this, chunkBacklog_empty] at hc
    simp at hc
  | succ n ih =>
    intro l hl c hc
    by_cases h : l = []
    · rw [h, chunkBacklog_empty] at hc; simp at hc
    · rw [chunkBacklog_cons h] at hc
      cases hc with
      | head => exact (List.length_take _ _).le.trans (by omega)
      | tail _ hc =>
        have hpos : 0 < l.length := List.length_pos.mpr h
        have hbc : 0 < backlogChunkChars := by rw [backlogChunkChars]; omega
        exact ih (l.drop backlogChunkChars)
          (by rw [List.length_drop]; omega) c hc

/-- An empty backlog produces no chunks; a non-empty one produces at least
one. -/
theorem chunkBacklog_eq_nil_iff (l : List Char) :
    chunkBacklog l = [] ↔ l = [] := by
  constructor
  · intro h
    by_contra hne
    rw [chunkBacklog_cons hne] at h
    cases h
  · intro h
    rw [h, chunkBacklog_empty]

/-- Projection form of `pushTerminalData_state`. -/
theorem pushTerminalData_buffer (s : SessionState) (data : List Char) :
    ((pushTerminalData s data).1).terminalBuffer =
      keepNewest maxTerminalBufferChars (s.terminalBuffer ++ data) := by
  show truncateBuffer (s.terminalBuffer ++ data) = _
  rw [truncateBuffer_eq]

/-- Folding `pushTerminalData` preserves "the backlog is the truncation of
everything appended so far". -/
theorem pushAll_buffer (ds : List (List Char)) :
    ∀ (s : SessionState) (acc : List Char),
      s.terminalBuffer = keepNewest maxTerminalBufferChars acc →
      (ds.foldl (fun st d => (pushTerminalData st d).1) s).terminalBuffer =
        keepNewest maxTerminalBufferChars (acc ++ ds.flatten) := by
  induction ds with
  | nil =>
    intro s acc hs
    simpa using hs
  | cons d ds ih =>
    intro s acc hs
    rw [List.foldl_cons]
    have hbuf : ((pushTerminalData s d).1).terminalBuffer =
        keepNewest maxTerminalBufferChars (acc ++ d) := by
      rw [pushTerminalData_buffer, hs, keepNewest_append]
    rw [ih (pushTerminalData s d).1 (acc ++ d) hbuf]
    simp

/-- C9: starting from the empty (post-stop) backlog, any sequence of
`pushTerminalData` calls leaves the backlog equal to the concatenation of all
pushed data truncated to its newest `maxTerminalBufferChars` characters; its
length never exceeds the cap and equals `min cap total`, and it is a suffix
of the concatenation (newest data retained). -/
theorem C9_backlog_truncation (s : SessionState) (ds : List (List Char))
    (h : s.terminalBuffer = []) :
    (ds.foldl (fun st d => (pushTerminalData st d).1) s).terminalBuffer =
        keepNewest maxTerminalBufferChars ds.flatten ∧
    (ds.foldl (fun st d => (pushTerminalData st d).1) s).terminalBuffer.length
        ≤ maxTerminalBufferChars ∧
    (ds.foldl (fun st d => (pushTerminalData st d).1) s).terminalBuffer.length
        = min maxTerminalBufferChars ds.flatten.length ∧
    (ds.foldl (fun st d => (pushTerminalData st d).1) s).terminalBuffer
        <:+ ds.flatten := by
  have hmain := pushAll_buffer ds s [] (by rw [h]; rfl)
  rw [List.nil_append] at hmain
  refine ⟨hmain, ?_, ?_, ?_⟩
  · rw [hmain]; exact keepNewest_length_le _ _
  · rw [hmain, keepNewest, List.length_drop]; omega
  · rw [hmain]; exact keepNewest_suffix _ _

/-- Witness for C9 on a concrete push sequence. -/
theorem C9_backlog_truncation_witness :
    (([['a', 'b'], ['c']] : List (List Char)).foldl
        (fun st d => (pushTerminalData st d).1)
        (newSession RunnerMode.mock)).terminalBuffer =
      keepNewest maxTerminalBufferChars
        ([['a', 'b'], ['c']] : List (List Char)).flatten :=
  (C9_backlog_truncation (newSession RunnerMode.mock) [['a', 'b'], ['c']]
    rfl).1

/-- C1: `attach` on a non-disposed session emits, in order: an optional
timer-cancel, the full backlog replayed as `terminal.data` chunks (none when
the backlog is empty, each chunk at most 64,000 characters, concatenating
back to the backlog exactly), then exactly one `ui.state` carrying the
last-known UI state, then one `ui.tool_ui.state` per cached tool-UI entry,
and only then the (conditional) start trigger, last. -/
theorem C1_attach_primes_viewer (s : SessionState) (w : Nat)
    (h : s.disposed = false) :
    (attach s w).2 =
      (if s.idleTimer.isSome then [Effect.cancelIdleTimer] else []) ++
        ((chunkBacklog s.terminalBuffer).map
          (fun c => Effect.sendTo w (SCMsg.terminalData c)) ++
          (Effect.sendTo w (SCMsg.uiState s.lastUiState) ::
            s.lastToolUiStates.map (fun e =>
              Effect.sendTo w (SCMsg.toolUiState e.2.toolCallId e.2.toolName
                e.2.stateKind e.2.statePayload)))) ++
        (if s.startPromise then [] else [Effect.scheduleStart]) ∧
    (chunkBacklog s.terminalBuffer).flatten = s.terminalBuffer ∧
    (∀ c ∈ chunkBacklog s.terminalBuffer, c.length ≤ backlogChunkChars) ∧
    (s.terminalBuffer = [] ↔ chunkBacklog s.terminalBuffer = []) := by
  refine ⟨?_, chunkBacklog_flatten _, chunkBacklog_size _,
    (chunkBacklog_eq_nil_iff _).symm⟩
  rw [attach]
  simp only [h, Bool.false_eq_true, if_false, flushTerminalBacklog,
    ensureStarted]
  by_cases hs : s.startPromise
  · simp [hs]
  · simp [hs]

/-- A concrete session for the C1 witness: non-empty backlog, one cached
tool-UI entry, idle state otherwise. -/
def c1State : SessionState :=
  { newSession RunnerMode.mock with
      terminalBuffer := "hello".toList,
      lastToolUiStates := [("t1", ⟨"t1", "Bash", "k", "p"⟩)] }

/-- Witness for C1 at a concrete session and viewer. -/
theorem C1_attach_primes_viewer_witness :
    (attach c1State 7).2 =
      (if c1State.idleTimer.isSome then [Effect.cancelIdleTimer] else []) ++
        ((chunkBacklog c1State.terminalBuffer).map
          (fun c => Effect.sendTo 7 (SCMsg.terminalData c)) ++
          (Effect.sendTo 7 (SCMsg.uiState c1State.lastUiState) ::
            c1State.lastToolUiStates.map (fun e =>
              Effect.sendTo 7 (SCMsg.toolUiState e.2.toolCallId e.2.toolName
                e.2.stateKind e.2.statePayload)))) ++
        (if c1State.startPromise then [] else [Effect.scheduleStart]) :=
  (C1_attach_primes_viewer c1State 7 rfl).1

/-- `dispose` always leaves the `disposed` flag set. -/
theorem dispose_disposed (t : SessionState) : (dispose t).1.disposed = true := by
  rw [dispose]
  by_cases h : t.disposed
  · simp [h]
  · simp [h, stop]

/-- C10: attaching a viewer to a disposed session closes the connection and
changes nothing — no registration, no replay, no UI sends, no start; and
`dispose` is idempotent: a second `dispose` returns the same state with no
effects. -/
theorem C10_attach_after_dispose (t : SessionState) (w : Nat) :
    attach (dispose t).1 w = ((dispose t).1, [Effect.closeViewer w]) ∧
    dispose (dispose t).1 = ((dispose t).1, []) := by
  have hd := dispose_disposed t
  constructor
  · rw [attach, if_pos hd]
  · rw [dispose, if_pos hd]

/-- `ensureStarted` only touches `startPromise`; its effect is the start
trigger exactly when no start handle existed. -/
theorem ensureStarted_fields (s : SessionState) :
    (ensureStarted s).1.idleTimer = s.idleTimer ∧
    (ensureStarted s).1.ptyProcess = s.ptyProcess ∧
    (ensureStarted s).2 =
      (if s.startPromise then [] else [Effect.scheduleStart]) := by
  rw [ensureStarted]
  by_cases h : s.startPromise <;> simp [h]

/-- C3: a detach that leaves zero viewers with no stored timer handle arms
the 5-minute idle timer (and does not stop the worker); an attach while the
timer is pending cancels it without stopping the worker; the timer firing
stops the session — worker and control connection released, backlog emptied,
tool-UI cache cleared, UI state reset to the empty default. -/
theorem C3_idle_timer_protocol :
    (∀ (s : SessionState) (w : Nat), s.clients.erase w = [] →
      s.idleTimer = none →
      detach s w =
        ({ s with clients := [], idleTimer := some TimerState.pending },
          [Effect.armIdleTimer idleDelayMs]) ∧
      idleDelayMs = 5 * 60 * 1000) ∧
    (∀ (s : SessionState) (w : Nat), s.disposed = false →
      s.idleTimer = some TimerState.pending →
      (attach s w).1.idleTimer = none ∧
      (attach s w).1.ptyProcess = s.ptyProcess ∧
      Effect.killWorker ∉ (attach s w).2) ∧
    (∀ s : SessionState, s.idleTimer = some TimerState.pending →
      (idleTimerFire s).1.ptyProcess = false ∧
      (idleTimerFire s).1.runnerSocket = false ∧
      (idleTimerFire s).1.socketServer = false ∧
      (idleTimerFire s).1.terminalBuffer = [] ∧
      (idleTimerFire s).1.lastToolUiStates = [] ∧
      (idleTimerFire s).1.lastUiState = emptyUiState ∧
      (s.ptyProcess = true → Effect.killWorker ∈ (idleTimerFire s).2)) := by
  refine ⟨?_, ?_, ?_⟩
  · intro s w hz ht
    constructor
    · rw [detach]
      simp [hz, ht]
    · rfl
  · intro s w hd ht
    rw [attach]
    simp only [hd, Bool.false_eq_true, if_false]
    refine ⟨(ensureStarted_fields _).1, (ensureStarted_fields _).2.1, ?_⟩
    rw [(ensureStarted_fields _).2.2]
    simp only [ht, flushTerminalBacklog]
    by_cases hs : s.startPromise <;> simp [hs]
  · intro s ht
    rw [idleTimerFire]
    simp only [ht]
    refine ⟨rfl, rfl, rfl, rfl, rfl, rfl, ?_⟩
    intro hp
    rw [stop]
    simp [hp]

/-- A concrete armed session for the C3 witness. -/
def c3Armed : SessionState :=
  { newSession RunnerMode.mock with
      idleTimer := some TimerState.pending, ptyProcess := true }

/-- A concrete session holding its single last viewer, for the C3 witness. -/
def c3LastViewer : SessionState :=
  { newSession RunnerMode.mock with
      clients := [3], ptyProcess := true }

/-- Witness for C3: arm on last detach, cancel on attach, stop on fire. -/
theorem C3_idle_timer_protocol_witness :
    (detach c3LastViewer 3).2 = [Effect.armIdleTimer idleDelayMs] ∧
    (attach c3Armed 4).1.idleTimer = none ∧
    (idleTimerFire c3Armed).1.ptyProcess = false := by
  refine ⟨?_, ?_, ?_⟩
  · have h := (C3_idle_timer_protocol.1 c3LastViewer 3 (by decide) rfl).1
    rw [h]
  · exact (C3_idle_timer_protocol.2.1 c3Armed 4 rfl rfl).1
  · exact (C3_idle_timer_protocol.2.2 c3Armed rfl).1

/-- C7: `input.submit` goes over the control connection as exactly one
structured `runner.submit` (nothing to the pty) when the connection exists;
with no control connection but a running worker it becomes `text` plus a
carriage return as pty keystrokes; `ui.action` with no control connection is
dropped entirely — no pty write, no state change. -/
theorem C7_submit_and_action_forwarding (s : SessionState) (t : List Char)
    (act : UiAction) :
    (s.runnerSocket = true →
      forwardSubmit s t = (s, [Effect.writeRunner (SRMsg.runnerSubmit t)])) ∧
    (s.runnerSocket = false → s.ptyProcess = true →
      forwardSubmit s t = (s, [Effect.writePty t, Effect.writePty ['\r']])) ∧
    (s.runnerSocket = true →
      forwardUiAction s act =
        (s, [Effect.writeRunner (SRMsg.runnerUiAction act)])) ∧
    (s.runnerSocket = false → forwardUiAction s act = (s, [])) := by
  refine ⟨?_, ?_, ?_, ?_⟩
  · intro h; rw [forwardSubmit]; simp [h]
  · intro h hp; rw [forwardSubmit]; simp [h, hp]
  · intro h; rw [forwardUiAction]; simp [h]
  · intro h; rw [forwardUiAction]; simp [h]

/-- Witness for C7 at concrete sessions. -/
theorem C7_submit_and_action_forwarding_witness :
    forwardSubmit { newSession RunnerMode.mock with runnerSocket := true }
        "hi".toList =
      ({ newSession RunnerMode.mock with runnerSocket := true },
        [Effect.writeRunner (SRMsg.runnerSubmit "hi".toList)]) ∧
    forwardSubmit { newSession RunnerMode.mock with ptyProcess := true }
        "hi".toList =
      ({ newSession RunnerMode.mock with ptyProcess := true },
        [Effect.writePty "hi".toList, Effect.writePty ['\r']]) ∧
    forwardUiAction (newSession RunnerMode.mock) UiAction.overlayClose =
      (newSession RunnerMode.mock, []) := by
  refine ⟨?_, ?_, ?_⟩
  · exact (C7_submit_and_action_forwarding
      { newSession RunnerMode.mock with runnerSocket := true }
      "hi".toList UiAction.overlayClose).1 rfl
  · exact (C7_submit_and_action_forwarding
      { newSession RunnerMode.mock with ptyProcess := true }
      "hi".toList UiAction.overlayClose).2.1 rfl rfl
  · exact (C7_submit_and_action_forwarding
      (newSession RunnerMode.mock) "hi".toList UiAction.overlayClose).2.2.2 rfl

/-- C4: a non-mock start with no stored access token and no environment
fallback key spawns no worker; the "Not authenticated" diagnostic line is
appended to the backlog and broadcast to the attached viewers; no
`session.error` is broadcast or sent; the session remains worker-less and
control-connection-less (Idle), and a later `session.restart` with a valid
credential performs a fresh spawn. -/
theorem C4_start_without_credential (s : SessionState) (a : AuthEnv)
    (hr : ¬s.runner = RunnerMode.mock)
    (hk : a.storedAccessToken = none) (he : a.envApiKey = none)
    (hd : s.disposed = false) (hp : s.ptyProcess = false)
    (hrs : s.runnerSocket = false) :
    Effect.spawnWorker ∉ (start s a).2 ∧
    (start s a).1.ptyProcess = false ∧
    (start s a).1.runnerSocket = false ∧
    (start s a).1.terminalBuffer =
      keepNewest maxTerminalBufferChars (s.terminalBuffer ++ notAuthLine) ∧
    Effect.broadcast (SCMsg.terminalData notAuthLine) ∈ (start s a).2 ∧
    (∀ msg, Effect.broadcast (SCMsg.sessionError msg) ∉ (start s a).2) ∧
    (∀ w msg, Effect.sendTo w (SCMsg.sessionError msg) ∉ (start s a).2) ∧
    (∀ a2 : AuthEnv, a2.storedAccessToken.isSome →
      a2.storedApiBaseUrl = none → a2.envBaseUrl = none →
      Effect.spawnWorker ∈ (restartPty (start s a).1 a2).2 ∧
      (restartPty (start s a).1 a2).1.ptyProcess = true) := by
  have hkey : effectiveApiKey a = none := by
    rw [effectiveApiKey, hk]
    show a.envApiKey = none
    exact he
  have hstart : start s a =
      ({ s with
          tmpDir := true, socketPath := true, socketServer := true,
          terminalBuffer :=
            truncateBuffer (s.terminalBuffer ++ notAuthLine) },
        [Effect.broadcast (SCMsg.terminalData notAuthLine)]) := by
    rw [start]
    simp only [hr, if_false, hkey]
    rw [pushTerminalData]
    simp [hd]
  rw [hstart]
  refine ⟨by simp, hp, hrs, by rw [truncateBuffer_eq], by simp,
    fun msg => by simp, fun w msg => by simp, ?_⟩
  intro a2 hk2 hb2 he2
  have hkey2 : ∃ k, effectiveApiKey a2 = some k := by
    rw [effectiveApiKey]
    cases h2 : a2.storedAccessToken with
    | none => rw [h2] at hk2; cases hk2
    | some k => exact ⟨k, rfl⟩
  have hurl2 : effectiveBaseUrl a2 = none := by
    rw [effectiveBaseUrl, hb2]
    show a2.envBaseUrl = none
    exact he2
  obtain ⟨k, hkey2⟩ := hkey2
  rw [restartPty]
  simp only [hd, Bool.false_eq_true, if_false, hkey2, hurl2, hr, hp, hrs]
  simp [spawnPty]

/-- No credential anywhere: nothing stored, nothing in the environment. -/
def c4NoAuth : AuthEnv := ⟨none, none, none, none, true, ""⟩

/-- A stored token with no base URL (spawn proceeds without validation). -/
def c4GoodAuth : AuthEnv := ⟨some "k", none, none, none, true, ""⟩

/-- Witness for C4: an unauthenticated non-mock start spawns nothing, and a
later restart with a stored token spawns. -/
theorem C4_start_without_credential_witness :
    Effect.spawnWorker ∉ (start (newSession RunnerMode.letta) c4NoAuth).2 ∧
    Effect.spawnWorker ∈
      (restartPty (start (newSession RunnerMode.letta) c4NoAuth).1
        c4GoodAuth).2 := by
  have h := C4_start_without_credential (newSession RunnerMode.letta) c4NoAuth
    (by decide) rfl rfl rfl rfl rfl
  exact ⟨h.1, (h.2.2.2.2.2.2.2 c4GoodAuth rfl rfl rfl).1⟩

/-! ## Control-channel listener (`Session.startSocketServer`)

The `net.createServer` callback: a fresh connection is destroyed immediately
when `this.runnerSocket` is already set, otherwise it becomes the peer and
only then gets a data handler (so only the current peer's bytes are ever
dispatched).  `close`/`error` on the peer null the reference; the listener
keeps listening.  Connections are identified by allocation order. -/

/-- Listener state: the held peer, the id allocator, which connections were
destroyed at accept time, and which connections ever had data dispatched. -/
structure CCState where
  listening : Bool
  runnerSocket : Option Nat
  nextConn : Nat
  destroyed : List Nat
  dispatchedFrom : List Nat
deriving DecidableEq

/-- Events at the listener: a new inbound connection, bytes arriving from a
given connection, the peer closing, the peer erroring. -/
inductive CCEvent
  | connect
  | dataFrom (c : Nat)
  | peerClosed
  | peerErrored
deriving DecidableEq

/-- State right after `server.listen` succeeds. -/
def ccInit : CCState :=
  { listening := true, runnerSocket := none, nextConn := 0,
    destroyed := [], dispatchedFrom := [] }

/-- One listener event. -/
def ccStep (s : CCState) (e : CCEvent) : CCState :=
  match e with
  | CCEvent.connect =>
    if s.runnerSocket.isSome then
      { s with
          destroyed := s.destroyed ++ [s.nextConn],
          nextConn := s.nextConn + 1 }
    else
      { s with runnerSocket := some s.nextConn, nextConn := s.nextConn + 1 }
  | CCEvent.dataFrom c =>
    if s.runnerSocket = some c then
      { s with dispatchedFrom := s.dispatchedFrom ++ [c] }
    else s
  | CCEvent.peerClosed => { s with runnerSocket := none }
  | CCEvent.peerErrored => { s with runnerSocket := none }

/-- Run the listener from its initial state. -/
def ccRun (es : List CCEvent) : CCState := es.foldl ccStep ccInit

/-- Listener invariant: always listening; the peer (when present) is a known,
never-destroyed connection; destroyed and dispatched ids are allocated; no
destroyed connection ever had data dispatched. -/
def ccInv (s : CCState) : Prop :=
  s.listening = true ∧
  (∀ c, s.runnerSocket = some c → c < s.nextConn ∧ c ∉ s.destroyed) ∧
  (∀ c ∈ s.destroyed, c < s.nextConn) ∧
  (∀ c ∈ s.dispatchedFrom, c < s.nextConn) ∧
  (∀ c ∈ s.destroyed, c ∉ s.dispatchedFrom)

theorem ccInv_init : ccInv ccInit := by
  refine ⟨rfl, ?_, ?_, ?_, ?_⟩ <;> simp [ccInit]

theorem ccInv_step {s : CCState} (h : ccInv s) (e : CCEvent) :
    ccInv (ccStep s e) := by
  obtain ⟨hl, hpeer, hdes, hdis, hdd⟩ := h
  cases e with
  | connect =>
    rw [ccStep]
    cases hrs : s.runnerSocket with
    | some p =>
      simp only [hrs, Option.isSome_some, if_true]
      obtain ⟨hp1, hp2⟩ := hpeer p hrs
      refine ⟨hl, ?_, ?_, ?_, ?_⟩ <;> dsimp only
      · intro c hc
        injection hc with hpc
        subst hpc
        refine ⟨by omega, ?_⟩
        simp only [List.mem_append, List.mem_singleton]
        rintro (h1 | h2)
        · exact hp2 h1
        · omega
      · intro c hc
        simp only [List.mem_append, List.mem_singleton] at hc
        rcases hc with h1 | h2
        · have := hdes c h1; omega
        · omega
      · intro c hc
        have := hdis c hc; omega
      · intro c hc
        simp only [List.mem_append, List.mem_singleton] at hc
        rcases hc with h1 | h2
        · exact hdd c h1
        · intro hmem
          have := hdis c hmem
          omega
    | none =>
      simp only [hrs, Option.isSome_none, Bool.false_eq_true, if_false]
      refine ⟨hl, ?_, ?_, ?_, ?_⟩ <;> dsimp only
      · intro c hc
        injection hc with hpc
        subst hpc
        refine ⟨by omega, ?_⟩
        intro hmem
        have := hdes _ hmem
        omega
      · intro c hc
        have := hdes c hc; omega
      · intro c hc
        have := hdis c hc; omega
      · exact hdd
  | dataFrom c =>
    rw [ccStep]
    by_cases hc : s.runnerSocket = some c
    · rw [if_pos hc]
      obtain ⟨hc1, hc2⟩ := hpeer c hc
      refine ⟨hl, ?_, hdes, ?_, ?_⟩ <;> dsimp only
      · intro d hd
        exact hpeer d hd
      · intro d hd
        simp only [List.mem_append, List.mem_singleton] at hd
        rcases hd with h1 | h2
        · exact hdis d h1
        · omega
      · intro d hd
        simp only [List.mem_append, List.mem_singleton]
        rintro (h1 | h2)
        · exact hdd d hd h1
        · subst h2; exact hc2 hd
    · rw [if_neg hc]
      exact ⟨hl, hpeer, hdes, hdis, hdd⟩
  | peerClosed =>
    rw [ccStep]
    refine ⟨hl, ?_, hdes, hdis, hdd⟩
    intro c hc
    simp at hc
  | peerErrored =>
    rw [ccStep]
    refine ⟨hl, ?_, hdes, hdis, hdd⟩
    intro c hc
    simp at hc

theorem ccInv_foldl (es : List CCEvent) :
    ∀ s : CCState, ccInv s → ccInv (es.foldl ccStep s) := by
  induction es with
  | nil => intro s h; exact h
  | cons e es ih =>
    intro s h
    rw [List.foldl_cons]
    exact ih _ (ccInv_step h e)

/-- C6: in every reachable listener state the listener is still listening and
the peer (if any) is not a destroyed connection; no connection destroyed at
accept time ever has its data dispatched, and data arriving from it changes
nothing; a connection arriving while a peer is held is destroyed with the
peer unchanged; the peer closing or erroring just drops the reference, and
the next connection then becomes the new peer. -/
theorem C6_single_control_peer (es : List CCEvent) :
    (ccRun es).listening = true ∧
    (∀ c, (ccRun es).runnerSocket = some c → c ∉ (ccRun es).destroyed) ∧
    (∀ c ∈ (ccRun es).destroyed, c ∉ (ccRun es).dispatchedFrom) ∧
    (∀ c ∈ (ccRun es).destroyed,
      ccStep (ccRun es) (CCEvent.dataFrom c) = ccRun es) ∧
    ((ccRun es).runnerSocket.isSome →
      ccStep (ccRun es) CCEvent.connect =
        { ccRun es with
            destroyed := (ccRun es).destroyed ++ [(ccRun es).nextConn],
            nextConn := (ccRun es).nextConn + 1 }) ∧
    (ccStep (ccRun es) CCEvent.peerClosed).runnerSocket = none ∧
    (ccStep (ccRun es) CCEvent.peerErrored).runnerSocket = none ∧
    (ccStep (ccRun es) CCEvent.peerClosed).listening = (ccRun es).listening ∧
    (ccStep (ccStep (ccRun es) CCEvent.peerClosed)
        CCEvent.connect).runnerSocket = some (ccRun es).nextConn := by
  have hinv := ccInv_foldl es ccInit ccInv_init
  obtain ⟨hl, hpeer, hdes, hdis, hdd⟩ := hinv
  refine ⟨hl, fun c hc => (hpeer c hc).2, hdd, ?_, ?_, ?_, ?_, ?_, ?_⟩
  · intro c hc
    rw [ccStep]
    have : ¬(ccRun es).runnerSocket = some c := by
      intro h
      exact (hpeer c h).2 hc
    rw [if_neg this]
  · intro hsome
    rw [ccStep]
    simp only [hsome, if_true]
  · rw [ccStep]
  · rw [ccStep]
  · rw [ccStep]
  · rw [ccStep, ccStep]
    simp

/-- Witness for C6 on the trace "connect, then a second connect while the
first is held". -/
theorem C6_single_control_peer_witness :
    (ccRun [CCEvent.connect, CCEvent.connect]).listening = true ∧
    0 ∉ (ccRun [CCEvent.connect, CCEvent.connect]).destroyed ∧
    ccStep (ccRun [CCEvent.connect, CCEvent.connect]) (CCEvent.dataFrom 1) =
      ccRun [CCEvent.connect, CCEvent.connect] := by
  have h := C6_single_control_peer [CCEvent.connect, CCEvent.connect]
  exact ⟨h.1, h.2.1 0 rfl, h.2.2.2.1 1 (by decide)⟩

/-! ## Mock runner state (`server/src/runner/mock-runner.ts`)

The mock runner owns one mutable `UiState` and publishes it wholesale after
each mutation.  Every mutation of the approvals list goes through
`setApprovals`; overlay/selection mutations leave the approval fields
untouched. -/

/-- The mock runner's initial `state` literal. -/
def mockInitState : UiState :=
  { activeOverlay := none, pendingApprovals := [], currentApprovalIndex := 0,
    currentApproval := none,
    agentId := some "agent_mock", agentName := some "Mock Agent",
    currentModelId := some "mock-model-a", currentToolset := some "default",
    currentSystemPromptId := some "default",
    options := some
      ⟨[⟨"mock-model-a", "Mock Model A"⟩, ⟨"mock-model-b", "Mock Model B"⟩],
        [⟨"default", "Default"⟩, ⟨"gemini", "Gemini"⟩, ⟨"codex", "Codex"⟩],
        [⟨"default", "Default"⟩, ⟨"coding", "Coding"⟩]⟩ }

/-- `setActiveOverlay(overlay)`. -/
def setActiveOverlay (st : UiState) (o : Option String) : UiState :=
  { st with activeOverlay := o }

/-- `setApprovals(approvals)`: replace the list, reset the index to 0, set
`currentApproval` to the first element or delete it when the list is empty
(`approvals[0]` is undefined exactly for the empty list). -/
def setApprovals (st : UiState) (approvals : List Approval) : UiState :=
  let st1 :=
    { st with pendingApprovals := approvals, currentApprovalIndex := 0 }
  match approvals.head? with
  | some first => { st1 with currentApproval := some first }
  | none => { st1 with currentApproval := none }

/-- `handleUiAction`. -/
def handleUiAction (st : UiState) (a : UiAction) : UiState :=
  match a with
  | UiAction.overlayOpen o => setActiveOverlay st (some o)
  | UiAction.overlayClose => setActiveOverlay st none
  | UiAction.modelSelect id =>
    setActiveOverlay { st with currentModelId := some id } none
  | UiAction.toolsetSelect id =>
    setActiveOverlay { st with currentToolset := some id } none
  | UiAction.systemSelect id =>
    setActiveOverlay { st with currentSystemPromptId := some id } none
  | UiAction.approveCurrent => setApprovals st []
  | UiAction.approveAlways _ => setApprovals st []
  | UiAction.denyCurrent _ => setApprovals st []
  | UiAction.approvalCancel => setApprovals st []

/-- The approval injected by `/mock approval`. -/
def mockApprovalRequest : Approval :=
  ⟨"tool_mock_1", "Bash",
    "\x7b\"command\":\"echo hello\",\"description\":\"mock\"\x7d"⟩

/-- The approval injected by `/mock question`. -/
def mockQuestionRequest : Approval :=
  ⟨"tool_question_1", "AskUserQuestion", "\x7b\"questions\":[]\x7d"⟩

/-- The `runner.submit` handler's state changes (terminal echo omitted). -/
def handleSubmit (st : UiState) (text : String) : UiState :=
  let t := text.trim
  if t = "/mock approval" then setApprovals st [mockApprovalRequest]
  else if t = "/mock question" then setApprovals st [mockQuestionRequest]
  else if t = "/model" then setActiveOverlay st (some "model")
  else if t = "/toolset" then setActiveOverlay st (some "toolset")
  else if t = "/system" then setActiveOverlay st (some "system")
  else st

/-- The `runner.tool_ui.event` handler's state change. -/
def handleToolUiEvent (st : UiState) (eventType : String) : UiState :=
  if eventType = "ask_user_question.submit" then setApprovals st [] else st

/-- Everything the mock runner can do to its UI state. -/
inductive MockOp
  | submit (text : String)
  | uiAction (a : UiAction)
  | toolUiEvent (eventType : String)

/-- One mock-runner message. -/
def mockStep (st : UiState) (op : MockOp) : UiState :=
  match op with
  | MockOp.submit t => handleSubmit st t
  | MockOp.uiAction a => handleUiAction st a
  | MockOp.toolUiEvent e => handleToolUiEvent st e

/-- The mock runner's state after any message sequence (each publish sends a
snapshot of exactly this state). -/
def mockRun (ops : List MockOp) : UiState := ops.foldl mockStep mockInitState

/-- The denormalization invariant: `currentApproval` absent exactly when the
pending list is empty, otherwise equal to
`pendingApprovals[currentApprovalIndex]` with the index in bounds. -/
def approvalInv (st : UiState) : Prop :=
  (st.currentApproval = none ↔ st.pendingApprovals = []) ∧
  (st.pendingApprovals ≠ [] →
    st.currentApprovalIndex < st.pendingApprovals.length ∧
    st.pendingApprovals[st.currentApprovalIndex]? = st.currentApproval)

theorem setApprovals_inv (st : UiState) (l : List Approval) :
    approvalInv (setApprovals st l) := by
  cases l with
  | nil => simp [setApprovals, approvalInv]
  | cons a as => simp [setApprovals, approvalInv]

theorem setActiveOverlay_inv {st : UiState} (o : Option String)
    (h : approvalInv st) : approvalInv (setActiveOverlay st o) := h

theorem mockStep_inv {st : UiState} (h : approvalInv st) (op : MockOp) :
    approvalInv (mockStep st op) := by
  cases op with
  | submit t =>
    rw [mockStep, handleSubmit]
    split
    · exact setApprovals_inv _ _
    · split
      · exact setApprovals_inv _ _
      · split
        · exact h
        · split
          · exact h
          · split
            · exact h
            · exact h
  | uiAction a =>
    cases a with
    | overlayOpen o => exact h
    | overlayClose => exact h
    | modelSelect id => exact h
    | toolsetSelect id => exact h
    | systemSelect id => exact h
    | approveCurrent => exact setApprovals_inv _ _
    | approveAlways s => exact setApprovals_inv _ _
    | denyCurrent r => exact setApprovals_inv _ _
    | approvalCancel => exact setApprovals_inv _ _
  | toolUiEvent e =>
    rw [mockStep, handleToolUiEvent]
    split
    · exact setApprovals_inv _ _
    · exact h

theorem mockInit_inv : approvalInv mockInitState := by
  simp [approvalInv, mockInitState]

/-- C8: every UI snapshot the mock runner can publish satisfies the
denormalization invariant — `currentApproval` is absent exactly when
`pendingApprovals` is empty and otherwise equals
`pendingApprovals[currentApprovalIndex]` with the index valid; every
list-replacing operation (`setApprovals`) re-establishes it from any state;
and the broker forwards a `runner.ui_state` snapshot to viewers unmodified,
caching exactly the received state. -/
theorem C8_current_approval_invariant :
    approvalInv mockInitState ∧
    (∀ (st : UiState) (l : List Approval), approvalInv (setApprovals st l)) ∧
    (∀ ops : List MockOp, approvalInv (mockRun ops)) ∧
    (∀ (s : SessionState) (st : UiState), s.disposed = false →
      onRunnerMessage s (RSMsg.runnerUiState st) =
        ({ s with lastUiState := st },
          [Effect.broadcast (SCMsg.uiState st)])) := by
  refine ⟨mockInit_inv, setApprovals_inv, ?_, ?_⟩
  · intro ops
    rw [mockRun]
    have key : ∀ (l : List MockOp) (st : UiState), approvalInv st →
        approvalInv (l.foldl mockStep st) := by
      intro l
      induction l with
      | nil => intro st h; exact h
      | cons op l ih =>
        intro st h
        rw [List.foldl_cons]
        exact ih _ (mockStep_inv h op)
    exact key ops mockInitState mockInit_inv
  · intro s st hd
    rw [onRunnerMessage]
    simp [hd]

/-- Witness for C8: the invariant after `/mock approval`, and a concrete
unmodified forward. -/
theorem C8_current_approval_invariant_witness :
    approvalInv (mockRun [MockOp.submit "/mock approval"]) ∧
    onRunnerMessage (newSession RunnerMode.mock)
        (RSMsg.runnerUiState mockInitState) =
      ({ newSession RunnerMode.mock with lastUiState := mockInitState },
        [Effect.broadcast (SCMsg.uiState mockInitState)]) :=
  ⟨C8_current_approval_invariant.2.2.1 [MockOp.submit "/mock approval"],
    C8_current_approval_invariant.2.2.2 (newSession RunnerMode.mock)
      mockInitState rfl⟩

/-! ## Interleaving of `start()` with `session.restart` (mock runner)

`ensureStarted` assigns `this.startPromise` synchronously, but the `start()`
body is async with two suspension windows: awaiting `mkdtemp` (before
`this.socketPath` is set) and awaiting `startSocketServer` (after it is
set).  While `start()` is suspended, the event loop can deliver a viewer's
`session.restart`, which runs `restartPty` synchronously: destroy the
control socket, kill `this.ptyProcess` (null at that moment), and — for the
mock runner — call `spawnPty()` directly, which succeeds once `socketPath`
is set.  When the suspended `start()` later resumes it calls `spawnPty()`
again without re-checking `ptyProcess`, so the first worker is never killed.
`livePids` tracks every spawned worker process that has not been killed. -/

/-- The fields of `Session` relevant to the start/restart interleaving, plus
the in-flight `start()` body's position (`none` = not suspended;
`some 0` = awaiting `mkdtemp`; `some 1` = `socketPath` set, awaiting
`startSocketServer`). -/
structure SMState where
  startPromise : Bool
  socketPathSet : Bool
  startPC : Option Nat
  ptyProcess : Option Nat
  livePids : List Nat
  nextPid : Nat
deriving DecidableEq

/-- Scheduler events: `ensureStarted` running (attach), the suspended
`start()` body advancing past its next await, and `restartPty` running
(a viewer's `session.restart`). -/
inductive SMEvent
  | ensureStartedEv
  | startResume
  | restartEv
deriving DecidableEq

/-- `pty.spawn` + `this.ptyProcess = p`: a fresh pid becomes live. -/
def smSpawn (s : SMState) : SMState :=
  { s with
      ptyProcess := some s.nextPid,
      livePids := s.livePids ++ [s.nextPid], nextPid := s.nextPid + 1 }

/-- `this.ptyProcess?.kill(); this.ptyProcess = null`. -/
def smKillPty (s : SMState) : SMState :=
  match s.ptyProcess with
  | some p => { s with ptyProcess := none, livePids := s.livePids.erase p }
  | none => s

/-- One scheduler step. -/
def smStep (s : SMState) (e : SMEvent) : SMState :=
  match e with
  | SMEvent.ensureStartedEv =>
    if s.startPromise then s
    else { s with startPromise := true, startPC := some 0 }
  | SMEvent.startResume =>
    match s.startPC with
    | some 0 => { s with socketPathSet := true, startPC := some 1 }
    | some 1 => smSpawn { s with startPC := none }
    | _ => s
  | SMEvent.restartEv =>
    if s.socketPathSet then smSpawn (smKillPty s)
    else smKillPty s

/-- A fresh `Session` before any start. -/
def smInit : SMState :=
  { startPromise := false, socketPathSet := false, startPC := none,
    ptyProcess := none, livePids := [], nextPid := 0 }

/-- Run the scheduler from the fresh session. -/
def smRun (es : List SMEvent) : SMState := es.foldl smStep smInit

/-- The failing interleaving: attach triggers a start; the start body sets
`socketPath` and suspends awaiting the socket server; a `session.restart`
arrives and spawns worker 0; the start body resumes and spawns worker 1. -/
def c2Trace : List SMEvent :=
  [SMEvent.ensureStartedEv, SMEvent.startResume, SMEvent.restartEv,
    SMEvent.startResume]

/-- C2 evaluated at the failing interleaving: after `session.restart` during
an in-flight attach-triggered start, two spawned workers (pids 0 and 1) are
live simultaneously — worker 0 spawned by `restartPty`, worker 1 by the
resuming `start()` body, which never kills worker 0.  The `startPromise`
guard itself does hold: a second `ensureStarted` while the first start is in
flight changes nothing. -/
theorem C2_restart_during_start_spawns_two :
    (smRun c2Trace).livePids = [0, 1] ∧
    (smRun c2Trace).livePids.length = 2 ∧
    (smRun c2Trace).ptyProcess = some 1 ∧
    smStep (smRun [SMEvent.ensureStartedEv]) SMEvent.ensureStartedEv =
      smRun [SMEvent.ensureStartedEv] := by
  refine ⟨rfl, rfl, rfl, rfl⟩
